import Mathlib

/-!
Shallow embedding of the igoprotect validator script
(`Locksmith.py` and `validator_script.py`) and proofs about it.

Python strings are modelled as `List Char`, Python exceptions as values of
`PyExn`, and Python functions that may raise return `Except PyExn`.
All machine-level behaviour relevant to the claims is integer/string
manipulation; Python integers are unbounded, so `Int`/`Nat` model them
exactly.
-/

namespace IgoProtect

/-- Python `s.split(c)` for a single-character separator `c`:
always returns at least one piece, splitting at every occurrence of `c`. -/
def splitOnChar (c : Char) : List Char → List (List Char)
  | [] => [[]]
  | x :: xs =>
    match splitOnChar c xs with
    | [] => [[]]
    | r :: rs => if x = c then [] :: r :: rs else (x :: r) :: rs

/-- Characters removed by Python `str.strip()`. -/
def isPySpace (c : Char) : Bool :=
  c = ' ' || c = '\t' || c = '\n' || c = '\r' || c = '\x0b' || c = '\x0c'

/-- Python `str.strip()`: drop leading and trailing whitespace. -/
def pyStrip (s : List Char) : List Char :=
  ((s.dropWhile isPySpace).reverse.dropWhile isPySpace).reverse

/-- Normalization of one Python slice bound: negative indices count from the
end, and bounds are clamped into `[0, n]`. -/
def pyBound (n : Nat) (i : Int) : Nat :=
  if i < 0 then ((n : Int) + i).toNat else min i.toNat n

/-- Python slice `l[a:b]` with full index normalization. -/
def pySlice (l : List α) (a b : Int) : List α :=
  (l.take (pyBound l.length b)).drop (pyBound l.length a)

/-- Python `hay.find(needle)`: smallest start index of an occurrence of
`needle` in `hay`, and `-1` if there is none. -/
def pyFind (needle hay : List Char) : Int :=
  match (List.range (hay.length + 1)).find?
      (fun i => decide ((hay.drop i).take needle.length = needle)) with
  | some i => (i : Int)
  | none => -1

/-- Digit-string accumulator used by the model of Python `int(...)`. -/
def pyDigitsAux : List Char → Nat → Option Nat
  | [], acc => some acc
  | c :: cs, acc => if c.isDigit then pyDigitsAux cs (10 * acc + (c.toNat - 48)) else none

/-- Python `int(s)` on a decimal string: strips whitespace, allows one
optional sign, and fails (`ValueError`) on anything else. -/
def pyInt (s : List Char) : Option Int :=
  match pyStrip s with
  | [] => none
  | '-' :: ds => if ds.isEmpty then none else (pyDigitsAux ds 0).map (fun n => -(n : Int))
  | '+' :: ds => if ds.isEmpty then none else (pyDigitsAux ds 0).map (fun n => (n : Int))
  | ds => (pyDigitsAux ds 0).map (fun n => (n : Int))

/-- Kinds of Python exceptions that the embedded code can raise. -/
inductive PyExnKind
  | valueError
  | runtimeError
  | typeError
  | attributeError
  | indexError
deriving DecidableEq

/-- A Python exception: its class together with its message. -/
structure PyExn where
  kind : PyExnKind
  msg : List Char
deriving DecidableEq

/-- Decidable equality for `Except`, so that concrete runs of the embedded
functions can be checked by evaluation. -/
instance exceptDecEq {e a : Type} [DecidableEq e] [DecidableEq a] :
    DecidableEq (Except e a) := fun x y =>
  match x, y with
  | .ok v, .ok w =>
    if h : v = w then isTrue (by rw [h]) else isFalse (by intro hh; cases hh; exact h rfl)
  | .error v, .error w =>
    if h : v = w then isTrue (by rw [h]) else isFalse (by intro hh; cases hh; exact h rfl)
  | .ok _, .error _ => isFalse (by intro hh; cases hh)
  | .error _, .ok _ => isFalse (by intro hh; cases hh)

/-! ## `Locksmith.PartkeyFetcherGoal`: parsing `goal` command output -/

/-- The values of `PartkeyFetcherGoal.COLUMNS`: the labels required, in
order, in each 12-line block of `goal account partkeyinfo` output. -/
def COLUMNS_values : List (List Char) :=
  [("Participation ID").data,
   ("Parent address").data,
   ("Last vote round").data,
   ("Last block proposal round").data,
   ("Effective first round").data,
   ("Effective last round").data,
   ("First round").data,
   ("Last round").data,
   ("Key dilution").data,
   ("Selection key").data,
   ("Voting key").data,
   ("State proof key").data]

/-- The delimiter-index array built by `_filter_partkeys_from_stdout`:
indices of the lines equal to a single space, with `len(res) - 1`
appended (a Python `int`, hence `Int`: it is `-1` when `res` is empty). -/
def delimiter_idx (res : List (List Char)) : List Int :=
  (((List.range res.length).filter (fun i => decide (res.getD i [] = [' ']))).map Int.ofNat)
    ++ [(res.length : Int) - 1]

/-- The block-grouping loop of `_filter_partkeys_from_stdout`: for every
consecutive pair of delimiter indices, slice the lines strictly between
them. -/
def partkey_list_raw_of (res : List (List Char)) : List (List (List Char)) :=
  ((delimiter_idx res).zip (delimiter_idx res).tail).map
    (fun p => pySlice res (p.1 + 1) p.2)

/-- Validity of one raw block, as checked by
`_check_partkey_list_raw_format_validity`: exactly 12 lines and, for the
line paired with each required label, `line[1:len(label)+1] == label`. -/
def check_partkey_raw_block (pk : List (List Char)) : Bool :=
  pk.length == 12 &&
    (pk.zip COLUMNS_values).all (fun p => decide ((p.1.drop 1).take p.2.length = p.2))

/-- `_check_partkey_list_raw_format_validity`: every block must be valid. -/
def check_partkey_list_raw_format_validity (partkey_list_raw : List (List (List Char))) : Bool :=
  partkey_list_raw.all check_partkey_raw_block

/-- `_filter_partkeys_from_stdout`: drop the header line, group the
remaining lines into raw blocks between single-space delimiter lines, and
return them only when the format check passes (`None` otherwise). -/
def filter_partkeys_from_stdout (info_cmd_result : List Char) : Option (List (List (List Char))) :=
  if check_partkey_list_raw_format_validity
      (partkey_list_raw_of ((splitOnChar '\n' info_cmd_result).drop 1)) then
    some (partkey_list_raw_of ((splitOnChar '\n' info_cmd_result).drop 1))
  else none

/-- A parsed table row: the 12 column values in `COLUMNS` order. A `none`
entry models a pandas cell that was never assigned (left `NaN`). -/
abbrev PartkeyRow := List (Option (List Char))

/-- The parsed participation-key table: one row per raw block. -/
abbrev PartkeyTable := List PartkeyRow

/-- The `np.where`-based column lookup of `_convert_partkey_list_raw_to_table`:
the unique index of `COLUMNS` whose label equals the stripped key, failing
(a Python exception at the `np.squeeze`/indexing step) when the number of
matches is not exactly one. -/
def column_index_of (k : List Char) : Option Nat :=
  match (List.range COLUMNS_values.length).filter
      (fun j => decide (COLUMNS_values.getD j [] = k)) with
  | [j] => some j
  | _ => none

/-- One iteration of the line loop in `_convert_partkey_list_raw_to_table`:
`key, value = line.split(':')` (which raises unless the line has exactly
one colon), strip both, find the column of the key, and assign the value.
`none` models a raised exception. -/
def convert_partkey_line (row : PartkeyRow) (line : List Char) : Option PartkeyRow :=
  match splitOnChar ':' line with
  | [k, v] =>
    match column_index_of (pyStrip k) with
    | some j => some (row.set j (some (pyStrip v)))
    | none => none
  | _ => none

/-- The line loop of `_convert_partkey_list_raw_to_table` over one block,
threading the row being filled; any raised exception aborts. -/
def convert_partkey_lines : PartkeyRow → List (List Char) → Option PartkeyRow
  | row, [] => some row
  | row, line :: rest =>
    match convert_partkey_line row line with
    | some row2 => convert_partkey_lines row2 rest
    | none => none

/-- Conversion of one raw block into a table row, starting from an
all-`NaN` row as `pd.DataFrame(columns=..., index=...)` does. -/
def convert_partkey_block (pk : List (List Char)) : Option PartkeyRow :=
  convert_partkey_lines (List.replicate 12 none) pk

/-- `_convert_partkey_list_raw_to_table`: convert the blocks in order;
any exception while converting a block aborts the whole conversion. -/
def convert_partkey_list_raw_to_table : List (List (List Char)) → Option PartkeyTable
  | [] => some []
  | pk :: rest =>
    match convert_partkey_block pk with
    | some row => (convert_partkey_list_raw_to_table rest).map (fun t => row :: t)
    | none => none

/-- The reference count computed by `_make_partkey_table_from_stdout`:
`len(list_cmd_result.split('\n')) - 2` as a Python `int`. -/
def list_derived_count (list_cmd_result : List Char) : Int :=
  ((splitOnChar '\n' list_cmd_result).length : Int) - 2

/-- The `TypeError` raised by `len(None)` when
`_filter_partkeys_from_stdout` has returned `None`. -/
def len_of_none_type_error : PyExn :=
  ⟨.typeError, ("object of type NoneType has no len()").data⟩

/-- A Python exception raised inside `_convert_partkey_list_raw_to_table`
(malformed line or column lookup failure); the several possible concrete
exception classes are collapsed into one value, since no caller
distinguishes them. -/
def convert_partkey_error : PyExn :=
  ⟨.valueError, ("conversion of a partkey line failed").data⟩

/-- `_make_partkey_table_from_stdout`: compare the list-derived count with
the number of raw blocks; on mismatch warn and return `None` (`.ok none`);
otherwise convert to a table. When the format check made
`_filter_partkeys_from_stdout` return `None`, the subsequent
`len(partkey_list_raw)` raises `TypeError`. -/
def make_partkey_table_from_stdout (list_cmd_result info_cmd_result : List Char) :
    Except PyExn (Option PartkeyTable) :=
  match filter_partkeys_from_stdout info_cmd_result with
  | none => .error len_of_none_type_error
  | some partkey_list_raw =>
    if (partkey_list_raw.length : Int) ≠ list_derived_count list_cmd_result then .ok none
    else
      match convert_partkey_list_raw_to_table partkey_list_raw with
      | some t => .ok (some t)
      | none => .error convert_partkey_error

/-! ## `Locksmith`: table lookups -/

/-- The `AttributeError` raised by `None.query(...)` when the internal
partkey table is `None` (the parser produced no table). -/
def no_table_query_attribute_error : PyExn :=
  ⟨.attributeError, ("NoneType object has no attribute query").data⟩

/-- `ValueError` of `get_partkey_id_from_acc` when no record matches. -/
def no_partkeys_error (acc : List Char) : PyExn :=
  ⟨.valueError, ("No partkeys found for account ID ").data ++ acc⟩

/-- `ValueError` of `get_partkey_id_from_acc` when several records match. -/
def multiple_partkeys_error (acc : List Char) : PyExn :=
  ⟨.valueError, ("More than one parkey found for account ID ").data ++ acc⟩

/-- `PartkeyFetcherGoal.get_partkey_id_from_acc`, as a function of the
fetcher's current `partkey_table` attribute (`none` models
`partkey_table = None`): query the rows whose `parent_address` equals
`acc`, raise `ValueError` on zero or several matches, and return the
`participation_id` field of the unique match. -/
def get_partkey_id_from_acc (partkey_table : Option PartkeyTable) (acc : List Char) :
    Except PyExn (Option (List Char)) :=
  match partkey_table with
  | none => .error no_table_query_attribute_error
  | some t =>
    if (t.filter (fun r => decide (r.getD 1 none = some acc))).length = 0 then
      .error (no_partkeys_error acc)
    else if (t.filter (fun r => decide (r.getD 1 none = some acc))).length > 1 then
      .error (multiple_partkeys_error acc)
    else .ok (((t.filter (fun r => decide (r.getD 1 none = some acc))).headD []).getD 0 none)

/-- `ValueError` of `get_partkey_details` when no record matches. -/
def no_keys_found_error (partkey_id : List Char) : PyExn :=
  ⟨.valueError, ("No keys found for ID ").data ++ partkey_id⟩

/-- `RuntimeError` of `get_partkey_details` when several records match. -/
def multiple_keys_found_error : PyExn :=
  ⟨.runtimeError, ("Multiple keys found").data⟩

/-- A participation key as assembled by `get_partkey_details`
(the `ParticipationKey` dataclass of `Locksmith.py`). -/
structure ParticipationKey where
  sel_key : List Char
  vote_key : List Char
  state_proof_key : List Char
  vote_key_dilution : Int
  round_start : Int
  round_end : Int
deriving DecidableEq

/-- Python `int(...)` applied to one pandas cell: a `NaN` cell (`none`)
or a non-numeric string raises `ValueError`. -/
def pyIntOfField : Option (List Char) → Except PyExn Int
  | none => .error ⟨.valueError, ("cannot convert float NaN to integer").data⟩
  | some s =>
    match pyInt s with
    | some n => .ok n
    | none => .error ⟨.valueError, ("invalid literal for int() with base 10").data⟩

/-- `PartkeyFetcherGoal.get_partkey_details`, as a function of the table
attribute in force when the query runs (after the optional refresh):
query by `participation_id`, raise on zero or several matches, and build
a `ParticipationKey` from the unique row (string fields as stored;
`key_dilution`, `first_round`, `last_round` through `int(...)`).
Rows produced by the parser always carry all 12 fields, so the `getD`
defaults for the three string fields are never reached on parser output. -/
def get_partkey_details (partkey_table : Option PartkeyTable) (partkey_id : List Char) :
    Except PyExn ParticipationKey :=
  match partkey_table with
  | none => .error no_table_query_attribute_error
  | some t =>
    let row := t.filter (fun r => decide (r.getD 0 none = some partkey_id))
    if row.length = 0 then .error (no_keys_found_error partkey_id)
    else if row.length > 1 then .error multiple_keys_found_error
    else
      let r := row.headD []
      match pyIntOfField (r.getD 8 none) with
      | .error e => .error e
      | .ok key_dilution =>
        match pyIntOfField (r.getD 6 none) with
        | .error e => .error e
        | .ok first_round =>
          match pyIntOfField (r.getD 7 none) with
          | .error e => .error e
          | .ok last_round =>
            .ok ⟨(r.getD 9 none).getD [], (r.getD 10 none).getD [],
                 (r.getD 11 none).getD [], key_dilution, first_round, last_round⟩

/-! ## `run_cmd_command_and_wait_for_output` -/

/-- What happened when `subprocess.run` was invoked: either a process was
spawned (and completed with a return code and captured streams), or the
call raised `OSError`. -/
inductive SpawnOutcome
  | spawned (returncode : Int) (stdout stderr : List Char)
  | osError (msg : List Char)
deriving DecidableEq

/-- The `AttributeError` raised by `result.stdout` when `result` is still
`None` after `subprocess.run` raised `OSError`. -/
def result_none_attribute_error : PyExn :=
  ⟨.attributeError, ("NoneType object has no attribute stdout").data⟩

/-- `run_cmd_command_and_wait_for_output`, as a function of the spawn
outcome: on a spawned process it returns `(returncode == 0, stdout)`
(the negative/positive return-code branches only log); after an `OSError`
it falls through to `result.stdout` with `result = None` and raises. -/
def run_cmd_command_and_wait_for_output (outcome : SpawnOutcome) :
    Except PyExn (Bool × List Char) :=
  match outcome with
  | .osError _ => .error result_none_attribute_error
  | .spawned returncode stdout _ => .ok (decide (returncode = 0), stdout)

/-! ## `Locksmith`: command construction and identifier extraction -/

/-- Largest `r ≤ k` with `r * r ≤ n` (helper for the floor square root). -/
def floorSqrtAux (n : Nat) : Nat → Nat
  | 0 => 0
  | k + 1 => if (k + 1) * (k + 1) ≤ n then k + 1 else floorSqrtAux n k

/-- `⌊√n⌋` by bounded search (kept structurally recursive so that concrete
instances evaluate inside the kernel). -/
def floorSqrt (n : Nat) : Nat := floorSqrtAux n n

/-- `int(round(sqrt(n)))` for a natural number `n`: the integer nearest to
`√n`, which is exactly `⌊√n⌋` or its successor; `√n` is either an integer
or irrational, so the round-half-to-even tie rule never fires. -/
def roundHalfSqrt (n : Nat) : Nat :=
  if (floorSqrt n) * (floorSqrt n) + floorSqrt n < n then floorSqrt n + 1 else floorSqrt n

/-- The dilution computed by `_addpartkey_cmd_command_args`:
`int(round(sqrt(last_valid - last_valid)))` — note the source subtracts
`last_valid` from itself. -/
def addpartkey_dilution (first_valid last_valid : Int) : Int :=
  (roundHalfSqrt (last_valid - last_valid).toNat : Int)

/-- `_addpartkey_cmd_command_args`: the argument vector passed to the
external key-generation command. -/
def addpartkey_cmd_command_args (use_algokit : Bool) (del_acc : String)
    (first_valid last_valid : Int) : List String :=
  let dilution := addpartkey_dilution first_valid last_valid
  let command := ["goal", "account", "addpartkey",
    "-a=" ++ del_acc,
    "--roundFirstValid=" ++ toString first_valid,
    "--roundLastValid=" ++ toString last_valid,
    "--keyDilution=" ++ toString dilution]
  if use_algokit then "algokit" :: command else command

/-- The literal marker `'Participation ID: '` used by `_get_partkey_id`. -/
def participation_id_marker : List Char := ("Participation ID: ").data

/-- `_get_partkey_id`: take the second line of the command output, locate
the marker with `find` (which yields `-1` when absent), add the marker
length, and slice the line from there. Fewer than two lines raise
`IndexError`. -/
def get_partkey_id (cmd_command_return : List Char) : Except PyExn (List Char) :=
  match splitOnChar '\n' cmd_command_return with
  | _ :: line1 :: _ =>
    let start_index : Int :=
      pyFind participation_id_marker line1 + (participation_id_marker.length : Int)
    .ok (pySlice line1 start_index (line1.length : Int))
  | _ => .error ⟨.indexError, ("list index out of range").data⟩

/-! ## `Locksmith.deposit_partkey` -/

/-- The result of `base64.b64decode` on a transport-encoded key, kept
symbolic: the deposit call is characterized by which encoded string was
decoded. -/
structure B64Decoded where
  payload : List Char
deriving DecidableEq

/-- Symbolic `base64.b64decode`. -/
def b64decode (s : List Char) : B64Decoded := ⟨s⟩

/-- The keyword arguments of the `noticeboard_client.deposit_keys` call
issued by `deposit_partkey` (its `transaction_parameters` flattened to
the sender address, foreign apps and accounts; signer and suggested
params are opaque external objects). -/
structure DepositKeysCall where
  del_acc : List Char
  sel_key : B64Decoded
  vote_key : B64Decoded
  state_proof_key : B64Decoded
  vote_key_dilution : Int
  round_start : Int
  round_end : Int
  sender : List Char
  foreign_apps : List Int
  accounts : List (List Char)
deriving DecidableEq

/-- `ValueError: math domain error` from `sqrt` of a negative number. -/
def math_domain_error : PyExn := ⟨.valueError, ("math domain error").data⟩

/-- `Locksmith.deposit_partkey`: the deposit call it submits. Note the
dilution passed on chain is `round(sqrt(partkey.vote_key_dilution))`,
not the stored `vote_key_dilution` itself. -/
def deposit_partkey (partkey : ParticipationKey) (del_acc manager_address : List Char)
    (del_app_id val_app_id : Int) : Except PyExn DepositKeysCall :=
  if partkey.vote_key_dilution < 0 then .error math_domain_error
  else
    .ok ⟨del_acc,
      b64decode partkey.sel_key,
      b64decode partkey.vote_key,
      b64decode partkey.state_proof_key,
      (roundHalfSqrt partkey.vote_key_dilution.toNat : Int),
      partkey.round_start,
      partkey.round_end,
      manager_address,
      [val_app_id, del_app_id],
      [del_acc]⟩

/-! ## `validator_script`: contract classification -/

/-- The two on-chain flags of a delegator contract's global state, as
integers (Python truthiness via `bool(...)`). -/
structure DelAppState where
  keys_confirmed : Nat
  part_keys_deposited : Nat
deriving DecidableEq

/-- A delegator app as handled by the main loop: its id and its state. -/
structure DelApp where
  id : Int
  state : DelAppState
deriving DecidableEq

/-- `are_part_keys_confirmed`: `bool(del_app_state.keys_confirmed)`. -/
def are_part_keys_confirmed (del_app_state : DelAppState) : Bool :=
  decide (del_app_state.keys_confirmed ≠ 0)

/-- `are_part_keys_deposited`: `bool(del_app_state.part_keys_deposited)`. -/
def are_part_keys_deposited (del_app_state : DelAppState) : Bool :=
  decide (del_app_state.part_keys_deposited ≠ 0)

/-- `check_del_app_state_and_generate_cluster_stack`: one pass over the
delegator apps, appending each to the active, deposited, or created
bucket according to the two flags. -/
def check_del_app_state_and_generate_cluster_stack :
    List DelApp → List DelApp × List DelApp × List DelApp
  | [] => ([], [], [])
  | del_app :: rest =>
    let r := check_del_app_state_and_generate_cluster_stack rest
    if are_part_keys_confirmed del_app.state then (del_app :: r.1, r.2.1, r.2.2)
    else if are_part_keys_deposited del_app.state then (r.1, del_app :: r.2.1, r.2.2)
    else (r.1, r.2.1, del_app :: r.2.2)

/-! ## Well-formed `goal` output, as described by the external interface
contract (§6 of the spec): `info` blocks of 12 `label: value` lines with
a single-space delimiter line before each block, after a header line and
before one trailing line. These constructions are only used to state and
witness properties of the parser. -/

/-- One well-formed `partkeyinfo` line: a space, the label, a colon, the
value (real `goal` output indents each line by one space). -/
def mkLine (label v : List Char) : List Char := ' ' :: (label ++ ':' :: v)

/-- The 12 lines of one well-formed block, pairing the required labels in
order with the given values. -/
def mkBlockLines (vs : List (List Char)) : List (List Char) :=
  (COLUMNS_values.zip vs).map (fun p => mkLine p.1 p.2)

/-- One block region of the info output: its delimiter line followed by
its 12 content lines. -/
def blockRegion (vs : List (List Char)) : List (List Char) :=
  [' '] :: mkBlockLines vs

/-- All block regions of a well-formed info output, in order. -/
def infoBody (valss : List (List (List Char))) : List (List Char) :=
  (valss.map blockRegion).flatten

/-- Join lines with a separator character (inverse of `splitOnChar`). -/
def joinWith (c : Char) : List (List Char) → List Char
  | [] => []
  | l :: ls =>
    match ls with
    | [] => l
    | _ :: _ => l ++ c :: joinWith c ls

/-! ## Lemmas about the string primitives -/

theorem splitOnChar_ne_nil (c : Char) (s : List Char) : splitOnChar c s ≠ [] := by
  cases s with
  | nil => simp [splitOnChar]
  | cons x xs =>
    unfold splitOnChar
    cases h : splitOnChar c xs with
    | nil => simp
    | cons r rs =>
      by_cases hx : x = c <;> simp [hx]

theorem splitOnChar_of_not_mem (c : Char) (s : List Char) (h : c ∉ s) :
    splitOnChar c s = [s] := by
  induction s with
  | nil => rfl
  | cons x xs ih =>
    have hx : x ≠ c := fun hc => h (by simp [hc])
    have hxs : c ∉ xs := fun hc => h (by simp [hc])
    unfold splitOnChar
    rw [ih hxs]
    simp [hx]

theorem splitOnChar_cons_eq (c x : Char) (xs : List Char) :
    splitOnChar c (x :: xs) =
      match splitOnChar c xs with
      | [] => [[]]
      | r :: rs => if x = c then [] :: r :: rs else (x :: r) :: rs := by
  conv_lhs => rw [splitOnChar]

theorem splitOnChar_append_cons (c : Char) (ys : List Char) :
    ∀ xs : List Char, c ∉ xs → splitOnChar c (xs ++ c :: ys) = xs :: splitOnChar c ys := by
  intro xs
  induction xs with
  | nil =>
    intro _
    show splitOnChar c (c :: ys) = [] :: splitOnChar c ys
    rw [splitOnChar_cons_eq]
    cases hy : splitOnChar c ys with
    | nil => exact absurd hy (splitOnChar_ne_nil c ys)
    | cons r rs => simp
  | cons x xs ih =>
    intro h
    have hx : x ≠ c := fun hc => h (by simp [hc])
    have hxs : c ∉ xs := fun hc => h (by simp [hc])
    show splitOnChar c (x :: (xs ++ c :: ys)) = (x :: xs) :: splitOnChar c ys
    rw [splitOnChar_cons_eq, ih hxs]
    simp [hx]

theorem splitOnChar_joinWith (c : Char) :
    ∀ ls : List (List Char), ls ≠ [] → (∀ l ∈ ls, c ∉ l) →
      splitOnChar c (joinWith c ls) = ls := by
  intro ls
  induction ls with
  | nil => intro h; exact absurd rfl h
  | cons l ls ih =>
    intro _ hmem
    cases ls with
    | nil =>
      show splitOnChar c l = [l]
      exact splitOnChar_of_not_mem c l (hmem l (by simp))
    | cons l2 ls2 =>
      show splitOnChar c (l ++ c :: joinWith c (l2 :: ls2)) = l :: l2 :: ls2
      rw [splitOnChar_append_cons c _ l (hmem l (by simp))]
      rw [ih (by simp) (fun x hx => hmem x (by simp [hx]))]

/-! ## Delimiter positions of a well-formed info body -/

/-- Recursive characterization of the indices of single-space lines. -/
def spacePos : List (List Char) → List Nat
  | [] => []
  | r :: rs => (if r = [' '] then [0] else []) ++ (spacePos rs).map Nat.succ

theorem range_filter_eq_spacePos (res : List (List Char)) :
    (List.range res.length).filter (fun i => decide (res.getD i [] = [' '])) = spacePos res := by
  induction res with
  | nil => rfl
  | cons r rs ih =>
    show (List.range (rs.length + 1)).filter (fun i => decide ((r :: rs).getD i [] = [' '])) =
      (if r = [' '] then [0] else []) ++ (spacePos rs).map Nat.succ
    rw [List.range_succ_eq_map, List.filter_cons, List.filter_map]
    have hpq : List.filter ((fun i => decide ((r :: rs).getD i [] = [' '])) ∘ Nat.succ)
        (List.range rs.length)
        = List.filter (fun i => decide (rs.getD i [] = [' '])) (List.range rs.length) := by
      apply List.filter_congr
      intro i _
      simp
    rw [hpq, ih]
    by_cases hr : r = [' '] <;> simp [hr]

theorem spacePos_append (xs ys : List (List Char)) :
    spacePos (xs ++ ys) = spacePos xs ++ (spacePos ys).map (fun i => i + xs.length) := by
  induction xs with
  | nil => simp [spacePos]
  | cons x xs ih =>
    show (if x = [' '] then [0] else []) ++ (spacePos (xs ++ ys)).map Nat.succ
      = ((if x = [' '] then [0] else []) ++ (spacePos xs).map Nat.succ)
        ++ (spacePos ys).map (fun i => i + (xs.length + 1))
    rw [ih]
    have hcomp : (Nat.succ ∘ fun i => i + xs.length) = (fun i => i + (xs.length + 1)) := by
      funext i
      simp [Nat.succ_eq_add_one]
      omega
    simp [List.map_append, List.map_map, hcomp, List.append_assoc]

theorem spacePos_eq_nil (l : List (List Char)) (h : ∀ r ∈ l, r ≠ [' ']) : spacePos l = [] := by
  induction l with
  | nil => rfl
  | cons x xs ih =>
    show (if x = [' '] then [0] else []) ++ (spacePos xs).map Nat.succ = []
    rw [ih (fun r hr => h r (by simp [hr]))]
    simp [h x (by simp)]

theorem COLUMNS_values_length : COLUMNS_values.length = 12 := rfl

theorem mkBlockLines_length (vs : List (List Char)) (h : vs.length = 12) :
    (mkBlockLines vs).length = 12 := by
  simp [mkBlockLines, COLUMNS_values_length, h]

theorem mkBlockLines_ne_space (vs : List (List Char)) :
    ∀ line ∈ mkBlockLines vs, line ≠ [' '] := by
  intro line hline
  simp only [mkBlockLines, List.mem_map] at hline
  obtain ⟨p, _, rfl⟩ := hline
  simp [mkLine]

theorem blockRegion_length (vs : List (List Char)) (h : vs.length = 12) :
    (blockRegion vs).length = 13 := by
  simp [blockRegion, mkBlockLines_length vs h]

theorem infoBody_cons (vs : List (List Char)) (valss : List (List (List Char))) :
    infoBody (vs :: valss) = blockRegion vs ++ infoBody valss := by
  simp [infoBody]

theorem infoBody_length (valss : List (List (List Char)))
    (h : ∀ vs ∈ valss, vs.length = 12) :
    (infoBody valss).length = 13 * valss.length := by
  induction valss with
  | nil => rfl
  | cons vs valss ih =>
    rw [infoBody_cons]
    simp only [List.length_append, List.length_cons]
    rw [blockRegion_length vs (h vs (by simp)), ih (fun v hv => h v (by simp [hv]))]
    ring

theorem spacePos_infoBody (lastLine : List Char) (hlast : lastLine ≠ [' ']) :
    ∀ valss : List (List (List Char)), (∀ vs ∈ valss, vs.length = 12) →
      spacePos (infoBody valss ++ [lastLine])
        = (List.range valss.length).map (fun k => 13 * k) := by
  intro valss
  induction valss with
  | nil =>
    intro _
    show spacePos [lastLine] = []
    exact spacePos_eq_nil _ (by simpa using hlast)
  | cons vs valss ih =>
    intro hlen
    rw [infoBody_cons, List.append_assoc, spacePos_append,
      ih (fun v hv => hlen v (by simp [hv]))]
    have hregion : spacePos (blockRegion vs) = [0] := by
      show (if ([' '] : List Char) = [' '] then [0] else [])
        ++ (spacePos (mkBlockLines vs)).map Nat.succ = [0]
      rw [spacePos_eq_nil _ (mkBlockLines_ne_space vs)]
      simp
    rw [hregion, blockRegion_length vs (hlen vs (by simp))]
    have hcomp : ((fun i => i + 13) ∘ fun k => 13 * k) = ((fun k => 13 * k) ∘ Nat.succ) := by
      funext k
      simp [Nat.succ_eq_add_one]
      ring
    show [0] ++ ((List.range valss.length).map (fun k => 13 * k)).map (fun i => i + 13)
      = (List.range (valss.length + 1)).map (fun k => 13 * k)
    rw [List.range_succ_eq_map, List.map_map, hcomp]
    simp [List.map_map]

theorem delimiter_idx_infoBody (valss : List (List (List Char))) (lastLine : List Char)
    (hlast : lastLine ≠ [' ']) (hlen : ∀ vs ∈ valss, vs.length = 12) :
    delimiter_idx (infoBody valss ++ [lastLine])
      = (List.range (valss.length + 1)).map (fun k => Int.ofNat (13 * k)) := by
  unfold delimiter_idx
  rw [range_filter_eq_spacePos, spacePos_infoBody lastLine hlast valss hlen]
  have hlen2 : (infoBody valss ++ [lastLine]).length = 13 * valss.length + 1 := by
    simp [infoBody_length valss hlen]
  rw [hlen2]
  have hlast2 : ((13 * valss.length + 1 : Nat) : Int) - 1 = ((13 * valss.length : Nat) : Int) := by
    push_cast
    ring
  rw [hlast2]
  have hr : List.range (valss.length + 1) = List.range valss.length ++ [valss.length] :=
    List.range_succ valss.length
  rw [hr, List.map_append, List.map_map]
  rfl

/-! ## Extracting the blocks of a well-formed info body -/

theorem zipTail_map_range {α : Type} (f : Nat → α) :
    ∀ n, (((List.range (n + 1)).map f).zip (((List.range (n + 1)).map f).tail))
      = (List.range n).map (fun k => (f k, f (k + 1))) := by
  intro n
  induction n generalizing f with
  | zero => rfl
  | succ n ih =>
    have hL : (List.range (n + 2)).map f
        = f 0 :: (List.range (n + 1)).map (f ∘ Nat.succ) := by
      rw [List.range_succ_eq_map]
      simp [List.map_map]
    have hL2 : (List.range (n + 1)).map (f ∘ Nat.succ)
        = (f ∘ Nat.succ) 0 :: (List.range n).map ((f ∘ Nat.succ) ∘ Nat.succ) := by
      rw [List.range_succ_eq_map]
      simp [List.map_map]
    have h3 := ih (f ∘ Nat.succ)
    rw [hL2] at h3
    simp only [List.tail_cons] at h3
    rw [hL]
    simp only [List.tail_cons]
    rw [hL2, List.zip_cons_cons, h3]
    rw [List.range_succ_eq_map, List.map_cons, List.map_map]
    rfl

theorem pyBound_ofNat (n a : Nat) : pyBound n (Int.ofNat a) = min a n := by
  unfold pyBound
  rw [if_neg (by simp [Int.ofNat_eq_natCast])]
  simp

theorem infoBody_drop (lastLine : List Char) :
    ∀ (k : Nat) (valss : List (List (List Char))), (∀ vs ∈ valss, vs.length = 12) →
      k ≤ valss.length →
      (infoBody valss ++ [lastLine]).drop (13 * k) = infoBody (valss.drop k) ++ [lastLine] := by
  intro k
  induction k with
  | zero => intro valss _ _; simp
  | succ k ih =>
    intro valss hlen hk
    cases valss with
    | nil => simp at hk
    | cons vs valss =>
      have h13 : (blockRegion vs).length = 13 := blockRegion_length vs (hlen vs (by simp))
      rw [infoBody_cons, List.append_assoc]
      have hstep : (blockRegion vs ++ (infoBody valss ++ [lastLine])).drop 13
          = infoBody valss ++ [lastLine] := by
        rw [← h13]
        exact List.drop_left _ _
      have h1313 : 13 * (k + 1) = 13 + 13 * k := by ring
      rw [h1313, ← List.drop_drop, hstep]
      exact ih valss (fun v hv => hlen v (by simp [hv])) (by simpa using hk)

theorem pySlice_infoBody_block (lastLine : List Char) (valss : List (List (List Char)))
    (hlen : ∀ vs ∈ valss, vs.length = 12) (k : Nat) (hk : k < valss.length) :
    pySlice (infoBody valss ++ [lastLine]) (Int.ofNat (13 * k) + 1) (Int.ofNat (13 * (k + 1)))
      = mkBlockLines (valss.getD k []) := by
  have hn : (infoBody valss ++ [lastLine]).length = 13 * valss.length + 1 := by
    simp [infoBody_length valss hlen]
  have hgd : valss.getD k [] = valss[k] := List.getD_eq_getElem valss [] hk
  have hmem : valss.getD k [] ∈ valss := by
    rw [hgd]
    exact List.getElem_mem hk
  have h12 : (mkBlockLines (valss.getD k [])).length = 12 :=
    mkBlockLines_length _ (hlen _ hmem)
  have hA : Int.ofNat (13 * k) + 1 = Int.ofNat (13 * k + 1) := by
    simp [Int.ofNat_eq_natCast]
  rw [hA]
  unfold pySlice
  rw [pyBound_ofNat, pyBound_ofNat, hn]
  rw [Nat.min_eq_left (by omega), Nat.min_eq_left (by omega)]
  rw [List.drop_take]
  rw [show 13 * (k + 1) - (13 * k + 1) = 12 from by omega]
  rw [← List.drop_drop, infoBody_drop lastLine k valss hlen (le_of_lt hk)]
  rw [List.drop_eq_getElem_cons hk, ← hgd, infoBody_cons]
  show (((([' '] :: mkBlockLines (valss.getD k []))
      ++ infoBody (valss.drop (k + 1))) ++ [lastLine]).drop 1).take 12
    = mkBlockLines (valss.getD k [])
  rw [List.cons_append, List.cons_append, List.drop_succ_cons, List.drop_zero]
  rw [List.append_assoc, ← h12]
  exact List.take_left _ _

theorem partkey_list_raw_of_infoBody (valss : List (List (List Char))) (lastLine : List Char)
    (hlast : lastLine ≠ [' ']) (hlen : ∀ vs ∈ valss, vs.length = 12) :
    partkey_list_raw_of (infoBody valss ++ [lastLine]) = valss.map mkBlockLines := by
  unfold partkey_list_raw_of
  rw [delimiter_idx_infoBody valss lastLine hlast hlen, zipTail_map_range, List.map_map]
  apply List.ext_getElem
  · simp
  intro i h1 h2
  simp only [List.getElem_map, List.getElem_range, Function.comp]
  have hi : i < valss.length := by simpa using h1
  rw [pySlice_infoBody_block lastLine valss hlen i hi]
  rw [List.getD_eq_getElem valss [] hi]

/-! ## Validity and conversion of well-formed blocks -/

theorem check_lines_zip :
    ∀ labels vs : List (List Char),
      (((labels.zip vs).map (fun p => mkLine p.1 p.2)).zip labels).all
        (fun p => decide ((p.1.drop 1).take p.2.length = p.2)) = true := by
  intro labels
  induction labels with
  | nil => intro vs; rfl
  | cons l ls ih =>
    intro vs
    cases vs with
    | nil => rfl
    | cons v vs =>
      rw [List.zip_cons_cons, List.map_cons, List.zip_cons_cons, List.all_cons,
        Bool.and_eq_true]
      refine ⟨?_, ih vs⟩
      simp only [mkLine, List.drop_succ_cons, List.drop_zero, decide_eq_true_eq]
      exact List.take_left _ _

theorem check_format_validity_mkBlocks (valss : List (List (List Char)))
    (hlen : ∀ vs ∈ valss, vs.length = 12) :
    check_partkey_list_raw_format_validity (valss.map mkBlockLines) = true := by
  unfold check_partkey_list_raw_format_validity
  rw [List.all_eq_true]
  intro pk hpk
  rw [List.mem_map] at hpk
  obtain ⟨vs, hvs, rfl⟩ := hpk
  unfold check_partkey_raw_block
  rw [Bool.and_eq_true]
  constructor
  · simp [mkBlockLines_length vs (hlen vs hvs)]
  · exact check_lines_zip COLUMNS_values vs

/-- Facts about the column labels needed for conversion, established by
evaluation: a leading space strips away, each label is found at its own
index, and no label contains a colon or a newline. -/
theorem columns_facts : ∀ j, j < 12 →
    pyStrip (' ' :: COLUMNS_values.getD j []) = COLUMNS_values.getD j []
    ∧ column_index_of (COLUMNS_values.getD j []) = some j
    ∧ (':') ∉ COLUMNS_values.getD j []
    ∧ ('\n') ∉ COLUMNS_values.getD j [] := by decide

theorem convert_partkey_line_mkLine (row : PartkeyRow) (j : Nat) (hj : j < 12)
    (v : List Char) (hv : (':') ∉ v) :
    convert_partkey_line row (mkLine (COLUMNS_values.getD j []) v)
      = some (row.set j (some (pyStrip v))) := by
  obtain ⟨hstrip, hidx, hnc, _⟩ := columns_facts j hj
  have hsplit : splitOnChar ':' (mkLine (COLUMNS_values.getD j []) v)
      = [' ' :: COLUMNS_values.getD j [], v] := by
    have h1 : mkLine (COLUMNS_values.getD j []) v
        = (' ' :: COLUMNS_values.getD j []) ++ ':' :: v := by
      simp [mkLine]
    have hns : (':') ∉ ' ' :: COLUMNS_values.getD j [] := by
      intro hmem
      rcases List.mem_cons.mp hmem with h | h
      · exact absurd h (by decide)
      · exact hnc h
    rw [h1, splitOnChar_append_cons ':' v _ hns,
      splitOnChar_of_not_mem ':' v hv]
  simp only [convert_partkey_line, hsplit, hstrip, hidx]

/-- Setting a row's entries from position `j` onward, in order; this is
the net effect of the conversion loop on a well-formed block. -/
def listSetFrom {α : Type} : List α → Nat → List α → List α
  | row, _, [] => row
  | row, j, w :: ws => listSetFrom (row.set j w) (j + 1) ws

theorem listSetFrom_cons_shift {α : Type} :
    ∀ (ws : List α) (row : List α) (a : α) (j : Nat),
      listSetFrom (a :: row) (j + 1) ws = a :: listSetFrom row j ws := by
  intro ws
  induction ws with
  | nil => intro row a j; rfl
  | cons w ws ih =>
    intro row a j
    show listSetFrom ((a :: row).set (j + 1) w) (j + 2) ws
      = a :: listSetFrom (row.set j w) (j + 1) ws
    rw [List.set_cons_succ]
    exact ih (row.set j w) a (j + 1)

theorem listSetFrom_replicate {α : Type} :
    ∀ (ws : List α) (a : α), listSetFrom (List.replicate ws.length a) 0 ws = ws := by
  intro ws
  induction ws with
  | nil => intro a; rfl
  | cons w ws ih =>
    intro a
    show listSetFrom ((a :: List.replicate ws.length a).set 0 w) 1 ws = w :: ws
    rw [List.set_cons_zero]
    rw [show (1 : Nat) = 0 + 1 from rfl]
    rw [listSetFrom_cons_shift ws (List.replicate ws.length a) w 0]
    rw [ih a]

theorem convert_lines_spec :
    ∀ (vs : List (List Char)) (j : Nat) (row : PartkeyRow),
      j + vs.length = 12 → (∀ v ∈ vs, (':') ∉ v) →
      convert_partkey_lines row
          (((COLUMNS_values.drop j).zip vs).map (fun p => mkLine p.1 p.2))
        = some (listSetFrom row j (vs.map (fun v => some (pyStrip v)))) := by
  intro vs
  induction vs with
  | nil =>
    intro j row _ _
    simp [convert_partkey_lines, listSetFrom]
  | cons v vs ih =>
    intro j row hj hcol
    rw [List.length_cons] at hj
    have hj12 : j < 12 := by omega
    have hjlen : j < COLUMNS_values.length := by rw [COLUMNS_values_length]; exact hj12
    have hdrop : COLUMNS_values.drop j
        = COLUMNS_values.getD j [] :: COLUMNS_values.drop (j + 1) := by
      rw [List.getD_eq_getElem COLUMNS_values [] hjlen]
      exact List.drop_eq_getElem_cons hjlen
    rw [hdrop, List.zip_cons_cons, List.map_cons]
    simp only [convert_partkey_lines,
      convert_partkey_line_mkLine row j hj12 v (hcol v (by simp))]
    rw [ih (j + 1) (row.set j (some (pyStrip v))) (by omega)
      (fun x hx => hcol x (by simp [hx]))]
    rfl

theorem convert_partkey_block_mkBlockLines (vs : List (List Char))
    (hlen : vs.length = 12) (hcol : ∀ v ∈ vs, (':') ∉ v) :
    convert_partkey_block (mkBlockLines vs) = some (vs.map (fun v => some (pyStrip v))) := by
  show convert_partkey_lines (List.replicate 12 none)
      ((COLUMNS_values.zip vs).map (fun p => mkLine p.1 p.2))
    = some (vs.map (fun v => some (pyStrip v)))
  have hspec := convert_lines_spec vs 0 (List.replicate 12 none) (by simp [hlen]) hcol
  rw [List.drop_zero] at hspec
  rw [hspec]
  have hlen2 : (vs.map (fun v => some (pyStrip v))).length = 12 := by simp [hlen]
  rw [← hlen2, listSetFrom_replicate]

theorem convert_table_mkBlocks :
    ∀ valss : List (List (List Char)),
      (∀ vs ∈ valss, vs.length = 12 ∧ ∀ v ∈ vs, (':') ∉ v) →
      convert_partkey_list_raw_to_table (valss.map mkBlockLines)
        = some (valss.map (fun vs => vs.map (fun v => some (pyStrip v)))) := by
  intro valss
  induction valss with
  | nil => intro _; rfl
  | cons vs valss ih =>
    intro h
    rw [List.map_cons]
    simp only [convert_partkey_list_raw_to_table,
      convert_partkey_block_mkBlockLines vs (h vs (by simp)).1 (h vs (by simp)).2,
      ih (fun v hv => h v (by simp [hv]))]
    rfl

/-! ## Assembled facts about the parser on well-formed input -/

theorem infoLines_no_newline (valss : List (List (List Char))) (header lastLine : List Char)
    (hvals : ∀ vs ∈ valss, ∀ v ∈ vs, ('\n') ∉ v)
    (hheader : ('\n') ∉ header) (hlastnl : ('\n') ∉ lastLine) :
    ∀ l ∈ header :: (infoBody valss ++ [lastLine]), ('\n') ∉ l := by
  intro l hl
  rcases List.mem_cons.mp hl with rfl | hl2
  · exact hheader
  rcases List.mem_append.mp hl2 with hb | hlast2
  · rw [infoBody, List.mem_flatten] at hb
    obtain ⟨region, hregion, hlr⟩ := hb
    rw [List.mem_map] at hregion
    obtain ⟨vs, hvs, rfl⟩ := hregion
    simp only [blockRegion, List.mem_cons] at hlr
    rcases hlr with rfl | hline
    · decide
    · rw [mkBlockLines, List.mem_map] at hline
      obtain ⟨p, hp, rfl⟩ := hline
      have hp1 : p.1 ∈ COLUMNS_values := (List.of_mem_zip hp).1
      have hp2 : p.2 ∈ vs := (List.of_mem_zip hp).2
      intro hmem
      rw [mkLine] at hmem
      rcases List.mem_cons.mp hmem with h1 | h2
      · exact absurd h1 (by decide)
      rcases List.mem_append.mp h2 with h3 | h4
      · have hnolab : ∀ lab ∈ COLUMNS_values, ('\n') ∉ lab := by decide
        exact hnolab p.1 hp1 h3
      rcases List.mem_cons.mp h4 with h5 | h6
      · exact absurd h5 (by decide)
      · exact hvals vs hvs p.2 hp2 h6
  · rw [List.mem_singleton] at hlast2
    rw [hlast2]
    exact hlastnl

theorem filter_partkeys_wellformed (valss : List (List (List Char)))
    (header lastLine : List Char)
    (hvals : ∀ vs ∈ valss, ∀ v ∈ vs, ('\n') ∉ v)
    (hlen12 : ∀ vs ∈ valss, vs.length = 12)
    (hheader : ('\n') ∉ header)
    (hlastnl : ('\n') ∉ lastLine) (hlastne : lastLine ≠ [' ']) :
    filter_partkeys_from_stdout (joinWith '\n' (header :: (infoBody valss ++ [lastLine])))
      = some (valss.map mkBlockLines) := by
  have hsplitinfo : splitOnChar '\n' (joinWith '\n' (header :: (infoBody valss ++ [lastLine])))
      = header :: (infoBody valss ++ [lastLine]) :=
    splitOnChar_joinWith '\n' _ (by simp)
      (infoLines_no_newline valss header lastLine hvals hheader hlastnl)
  unfold filter_partkeys_from_stdout
  rw [hsplitinfo]
  simp only [List.drop_succ_cons, List.drop_zero]
  rw [partkey_list_raw_of_infoBody valss lastLine hlastne hlen12]
  rw [check_format_validity_mkBlocks valss hlen12]
  rfl

/-- C1: for every well-formed `list`/`info` output pair with `N ≥ 0` blocks
(each block exactly 12 `label: value` lines carrying the required labels in
the required order, one single-space delimiter line before each block, and
the `list` output having `N + 2` lines), `_make_partkey_table_from_stdout`
returns a table of exactly `N` records, in block order, in which every
field equals the corresponding input value stripped of surrounding
whitespace. -/
theorem make_table_wellformed_roundtrip
    (valss : List (List (List Char))) (header lastLine : List Char)
    (listLines : List (List Char))
    (hvals : ∀ vs ∈ valss, vs.length = 12 ∧ ∀ v ∈ vs, ('\n') ∉ v ∧ (':') ∉ v)
    (hheader : ('\n') ∉ header)
    (hlastnl : ('\n') ∉ lastLine) (hlastne : lastLine ≠ [' '])
    (hlistlen : listLines.length = valss.length + 2)
    (hlistnl : ∀ l ∈ listLines, ('\n') ∉ l) :
    make_partkey_table_from_stdout (joinWith '\n' listLines)
        (joinWith '\n' (header :: (infoBody valss ++ [lastLine])))
      = .ok (some (valss.map (fun vs => vs.map (fun v => some (pyStrip v))))) := by
  have hlen12 : ∀ vs ∈ valss, vs.length = 12 := fun vs hv => (hvals vs hv).1
  have hfilter := filter_partkeys_wellformed valss header lastLine
    (fun vs hv v hvv => ((hvals vs hv).2 v hvv).1) hlen12 hheader hlastnl hlastne
  have hsplitlist : splitOnChar '\n' (joinWith '\n' listLines) = listLines :=
    splitOnChar_joinWith '\n' _
      (by intro hnil; rw [hnil] at hlistlen; simp at hlistlen) hlistnl
  have hcount : ((valss.map mkBlockLines).length : Int)
      = list_derived_count (joinWith '\n' listLines) := by
    unfold list_derived_count
    rw [hsplitlist, hlistlen, List.length_map]
    push_cast
    ring
  simp only [make_partkey_table_from_stdout, hfilter]
  rw [if_neg (not_ne_iff.mpr hcount)]
  rw [convert_table_mkBlocks valss
    (fun vs hv => ⟨(hvals vs hv).1, fun v hvv => ((hvals vs hv).2 v hvv).2⟩)]

/-! ## Claim theorems -/

/-- C1: for every well-formed `list`/`info` output pair with `N ≥ 0` blocks
(each block exactly 12 `label: value` lines carrying the required labels in
the required order, blocks separated by single-space delimiter lines, and
the `list` output having `N + 2` lines), the parser
`_make_partkey_table_from_stdout` returns a table of exactly `N` records,
in block order, in which every field equals the corresponding input value
stripped of surrounding whitespace. (Stated above as
`make_table_wellformed_roundtrip`; the 12 example values below witness it.) -/
def exampleVals : List (List Char) :=
  [(" ID7 ").data, ("ACC7").data, ("0").data, ("1").data, ("2").data, ("3").data,
   ("4").data, ("5").data, ("9").data, ("sk==").data, ("vk==").data, ("spk==").data]

theorem make_table_wellformed_roundtrip_witness :
    make_partkey_table_from_stdout
        (joinWith '\n' [("L0").data, ("L1").data, ("L2").data])
        (joinWith '\n' (("info header").data :: (infoBody [exampleVals] ++ [[]])))
      = .ok (some ([exampleVals].map (fun vs => vs.map (fun v => some (pyStrip v))))) :=
  make_table_wellformed_roundtrip [exampleVals] (("info header").data) []
    [("L0").data, ("L1").data, ("L2").data]
    (by decide) (by decide) (by decide) (by decide) (by decide) (by decide)

/-- Helper for C2: the three buckets built by the classification loop are
exactly the three filters of the input by the two flags. -/
theorem cluster_stack_eq_filters (l : List DelApp) :
    check_del_app_state_and_generate_cluster_stack l
      = (l.filter (fun a => are_part_keys_confirmed a.state),
         l.filter (fun a => are_part_keys_deposited a.state && !are_part_keys_confirmed a.state),
         l.filter (fun a => !are_part_keys_confirmed a.state && !are_part_keys_deposited a.state)) := by
  induction l with
  | nil => rfl
  | cons a rest ih =>
    by_cases h1 : are_part_keys_confirmed a.state <;>
      by_cases h2 : are_part_keys_deposited a.state <;>
        simp [check_del_app_state_and_generate_cluster_stack, ih, List.filter_cons, h1, h2]

/-- C2: classification is a strict partition. A contract lands in the
active bucket iff `keys_confirmed` is set, in the deposited bucket iff
`part_keys_deposited` is set and `keys_confirmed` is unset, and in the
created bucket iff neither flag is set; the three buckets are the three
(mutually exclusive, jointly exhaustive) filters of the input, and their
sizes sum to the input size. -/
theorem cluster_stack_strict_partition (del_app_list : List DelApp) :
    check_del_app_state_and_generate_cluster_stack del_app_list
      = (del_app_list.filter (fun a => are_part_keys_confirmed a.state),
         del_app_list.filter
           (fun a => are_part_keys_deposited a.state && !are_part_keys_confirmed a.state),
         del_app_list.filter
           (fun a => !are_part_keys_confirmed a.state && !are_part_keys_deposited a.state))
    ∧ (check_del_app_state_and_generate_cluster_stack del_app_list).1.length
        + (check_del_app_state_and_generate_cluster_stack del_app_list).2.1.length
        + (check_del_app_state_and_generate_cluster_stack del_app_list).2.2.length
      = del_app_list.length := by
  have hsum : ∀ l : List DelApp,
      (l.filter (fun a => are_part_keys_confirmed a.state)).length
        + (l.filter
            (fun a => are_part_keys_deposited a.state && !are_part_keys_confirmed a.state)).length
        + (l.filter
            (fun a => !are_part_keys_confirmed a.state && !are_part_keys_deposited a.state)).length
      = l.length := by
    intro l
    induction l with
    | nil => rfl
    | cons a rest ih =>
      by_cases h1 : are_part_keys_confirmed a.state <;>
        by_cases h2 : are_part_keys_deposited a.state <;>
          simp [List.filter_cons, h1, h2] <;> omega
  refine ⟨cluster_stack_eq_filters del_app_list, ?_⟩
  rw [cluster_stack_eq_filters del_app_list]
  exact hsum del_app_list

/-- C3: whenever `_filter_partkeys_from_stdout` does produce parsed blocks
but their number differs from the list-derived record count
(`len(list output lines) − 2`), `_make_partkey_table_from_stdout` returns
no table (`None`, after logging a warning) and does not raise. -/
theorem make_table_count_mismatch_degrades (list_cmd_result info_cmd_result : List Char)
    (partkey_list_raw : List (List (List Char)))
    (hparse : filter_partkeys_from_stdout info_cmd_result = some partkey_list_raw)
    (hcount : (partkey_list_raw.length : Int) ≠ list_derived_count list_cmd_result) :
    make_partkey_table_from_stdout list_cmd_result info_cmd_result = .ok none := by
  simp only [make_partkey_table_from_stdout, hparse]
  rw [if_pos hcount]

theorem make_table_count_mismatch_witness :
    filter_partkeys_from_stdout (("h").data) = some []
    ∧ make_partkey_table_from_stdout [] (("h").data) = .ok none :=
  ⟨by decide, make_table_count_mismatch_degrades [] (("h").data) [] (by decide) (by decide)⟩

/-- C4: if any raw block grouped from the info output has a number of
lines different from 12, or a line whose label slice does not match the
required label at its position, the parser rejects the entire batch:
`_filter_partkeys_from_stdout` returns `None`, and
`_make_partkey_table_from_stdout` never produces a table (partial or
otherwise) from that info output, whatever the list output. -/
theorem filter_rejects_invalid_batch (info_cmd_result : List Char)
    (pk : List (List Char))
    (hmem : pk ∈ partkey_list_raw_of ((splitOnChar '\n' info_cmd_result).drop 1))
    (hbad : pk.length ≠ 12
      ∨ ∃ i, i < min pk.length 12
          ∧ ((pk.getD i []).drop 1).take ((COLUMNS_values.getD i []).length)
            ≠ COLUMNS_values.getD i []) :
    filter_partkeys_from_stdout info_cmd_result = none
    ∧ ∀ (list_cmd_result : List Char) (t : PartkeyTable),
        make_partkey_table_from_stdout list_cmd_result info_cmd_result ≠ .ok (some t) := by
  have hcb : check_partkey_raw_block pk = false := by
    unfold check_partkey_raw_block
    rcases hbad with hlen | ⟨i, hi, hneq⟩
    · simp [hlen]
    · rw [Bool.and_eq_false_iff]
      right
      rw [List.all_eq_false]
      have h1 : i < pk.length := by omega
      have h2 : i < COLUMNS_values.length := by rw [COLUMNS_values_length]; omega
      have hiz : i < (pk.zip COLUMNS_values).length := by
        rw [List.length_zip]
        exact Nat.lt_min.mpr ⟨h1, h2⟩
      refine ⟨(pk.zip COLUMNS_values).get ⟨i, hiz⟩, List.get_mem _ _ hiz, ?_⟩
      have hget : (pk.zip COLUMNS_values).get ⟨i, hiz⟩
          = (pk.getD i [], COLUMNS_values.getD i []) := by
        rw [List.get_eq_getElem, List.getElem_zip,
          ← List.getD_eq_getElem pk [] h1, ← List.getD_eq_getElem COLUMNS_values [] h2]
      rw [hget]
      simpa using hneq
  have hvalid : check_partkey_list_raw_format_validity
      (partkey_list_raw_of ((splitOnChar '\n' info_cmd_result).drop 1)) = false := by
    rcases Bool.eq_false_or_eq_true (check_partkey_list_raw_format_validity
        (partkey_list_raw_of ((splitOnChar '\n' info_cmd_result).drop 1))) with h | h
    · exfalso
      have := List.all_eq_true.mp h pk hmem
      rw [hcb] at this
      exact Bool.false_ne_true this
    · exact h
  have hf : filter_partkeys_from_stdout info_cmd_result = none := by
    unfold filter_partkeys_from_stdout
    rw [hvalid]
    rfl
  refine ⟨hf, ?_⟩
  intro list_cmd_result t
  simp [make_partkey_table_from_stdout, hf]

theorem filter_rejects_invalid_batch_witness :
    filter_partkeys_from_stdout (("h\n \nxyz\n").data) = none
    ∧ make_partkey_table_from_stdout [] (("h\n \nxyz\n").data) ≠ .ok (some []) :=
  ⟨(filter_rejects_invalid_batch (("h\n \nxyz\n").data) [("xyz").data]
      (by decide) (by decide)).1,
   (filter_rejects_invalid_batch (("h\n \nxyz\n").data) [("xyz").data]
      (by decide) (by decide)).2 [] []⟩

/-- C5: the claim states that `--keyDilution` equals
`int(round(sqrt(round_end − round_start)))`; the code computes
`int(round(sqrt(last_valid − last_valid)))`, which is always `0`. At
`round_start = 100`, `round_end = 200` the command carries
`--keyDilution=0`, while the claimed formula gives `10`. -/
theorem addpartkey_key_dilution_always_zero :
    addpartkey_cmd_command_args true "ADDR" 100 200
      = ["algokit", "goal", "account", "addpartkey", "-a=ADDR",
         "--roundFirstValid=100", "--roundLastValid=200", "--keyDilution=0"]
    ∧ (roundHalfSqrt ((200 : Int) - 100).toNat : Int) = 10
    ∧ ((0 : Int) ≠ 10) := by
  refine ⟨by decide, by decide, by decide⟩

/-- C6: when the parser has yielded no table (the fetcher's
`partkey_table` attribute is `None`), neither key-table lookup treats the
state as unknown: both `get_partkey_details` and `get_partkey_id_from_acc`
raise `AttributeError` at `None.query(...)`, which no caller in the main
loop catches. -/
theorem no_table_lookups_raise_attribute_error :
    (∀ partkey_id : List Char,
        get_partkey_details none partkey_id = .error no_table_query_attribute_error)
    ∧ (∀ acc : List Char,
        get_partkey_id_from_acc none acc = .error no_table_query_attribute_error) :=
  ⟨fun _ => rfl, fun _ => rfl⟩

/-- C7: `get_partkey_id_from_acc` on a present table returns the unique
matching record's `participation_id` when exactly one row's
`parent_address` equals the account, fails with the not-found
`ValueError` when zero rows match, fails with the distinct
more-than-one `ValueError` when several rows match, and the two errors
are distinct. -/
theorem get_partkey_id_from_acc_trichotomy (t : PartkeyTable) (acc : List Char) :
    ((t.filter (fun r => decide (r.getD 1 none = some acc))).length = 0 →
        get_partkey_id_from_acc (some t) acc = .error (no_partkeys_error acc))
    ∧ (∀ r, t.filter (fun r => decide (r.getD 1 none = some acc)) = [r] →
        get_partkey_id_from_acc (some t) acc = .ok (r.getD 0 none))
    ∧ ((t.filter (fun r => decide (r.getD 1 none = some acc))).length > 1 →
        get_partkey_id_from_acc (some t) acc = .error (multiple_partkeys_error acc))
    ∧ no_partkeys_error acc ≠ multiple_partkeys_error acc := by
  refine ⟨?_, ?_, ?_, ?_⟩
  · intro h
    simp only [get_partkey_id_from_acc]
    rw [if_pos h]
  · intro r hr
    simp only [get_partkey_id_from_acc, hr]
    simp
  · intro h
    simp only [get_partkey_id_from_acc]
    rw [if_neg (by omega), if_pos h]
  · intro h
    have hmsg : ("No partkeys found for account ID ").data ++ acc
        = ("More than one parkey found for account ID ").data ++ acc :=
      congrArg PyExn.msg h
    have hlen := congrArg List.length hmsg
    rw [List.length_append, List.length_append] at hlen
    have e1 : (("No partkeys found for account ID ").data).length = 33 := rfl
    have e2 : (("More than one parkey found for account ID ").data).length = 42 := rfl
    rw [e1, e2] at hlen
    omega

theorem get_partkey_id_from_acc_witness :
    get_partkey_id_from_acc (some [[some (("ID9").data), some (("ACC9").data)]]) (("ACC9").data)
      = .ok (some (("ID9").data)) :=
  (get_partkey_id_from_acc_trichotomy [[some (("ID9").data), some (("ACC9").data)]]
      (("ACC9").data)).2.1 [some (("ID9").data), some (("ACC9").data)] (by decide)

/-- Concrete participation key used to exhibit the dilution transformation
performed by `deposit_partkey`. -/
def deposit_example_partkey : ParticipationKey :=
  ⟨("sel==").data, ("vote==").data, ("spf==").data, 100, 5, 9⟩

/-- C8 counterexample: `deposit_partkey` does not submit the stored key
dilution value. For a record with stored dilution `100`, the submitted
`vote_key_dilution` is `round(sqrt(100)) = 10 ≠ 100`. -/
theorem deposit_partkey_dilution_not_stored :
    (deposit_partkey deposit_example_partkey (("A").data) (("M").data) 1 2).map
        DepositKeysCall.vote_key_dilution = .ok 10
    ∧ deposit_example_partkey.vote_key_dilution = 100
    ∧ ¬ ((deposit_partkey deposit_example_partkey (("A").data) (("M").data) 1 2).map
        DepositKeysCall.vote_key_dilution
          = .ok deposit_example_partkey.vote_key_dilution) := by
  refine ⟨by decide, rfl, by decide⟩

/-- C8 (amended): for every participation key record accepted by
`deposit_partkey`, the deposit call carries the transport-decoded
selection, vote and state-proof keys, `round_start` and `round_end`
unchanged, the contract and validator identifiers in
`foreign_apps`/`accounts`, the manager as sender — and a
`vote_key_dilution` equal to `round(sqrt(stored key dilution))`, not the
stored value itself. -/
theorem deposit_partkey_submitted_fields (partkey : ParticipationKey)
    (del_acc manager_address : List Char) (del_app_id val_app_id : Int)
    (c : DepositKeysCall)
    (h : deposit_partkey partkey del_acc manager_address del_app_id val_app_id = .ok c) :
    c.del_acc = del_acc
    ∧ c.sel_key = b64decode partkey.sel_key
    ∧ c.vote_key = b64decode partkey.vote_key
    ∧ c.state_proof_key = b64decode partkey.state_proof_key
    ∧ c.vote_key_dilution = (roundHalfSqrt partkey.vote_key_dilution.toNat : Int)
    ∧ c.round_start = partkey.round_start
    ∧ c.round_end = partkey.round_end
    ∧ c.sender = manager_address
    ∧ c.foreign_apps = [val_app_id, del_app_id]
    ∧ c.accounts = [del_acc] := by
  unfold deposit_partkey at h
  by_cases hneg : partkey.vote_key_dilution < 0
  · rw [if_pos hneg] at h
    exact absurd h (by simp)
  · rw [if_neg hneg] at h
    cases h
    exact ⟨rfl, rfl, rfl, rfl, rfl, rfl, rfl, rfl, rfl, rfl⟩

/-- The concrete deposit call produced for `deposit_example_partkey`. -/
def deposit_example_call : DepositKeysCall :=
  ⟨("A").data, b64decode (("sel==").data), b64decode (("vote==").data),
   b64decode (("spf==").data), 10, 5, 9, ("M").data, [2, 1], [("A").data]⟩

theorem deposit_partkey_submitted_fields_witness :
    deposit_example_call.del_acc = ("A").data
    ∧ deposit_example_call.sel_key = b64decode deposit_example_partkey.sel_key
    ∧ deposit_example_call.vote_key = b64decode deposit_example_partkey.vote_key
    ∧ deposit_example_call.state_proof_key = b64decode deposit_example_partkey.state_proof_key
    ∧ deposit_example_call.vote_key_dilution
        = (roundHalfSqrt deposit_example_partkey.vote_key_dilution.toNat : Int)
    ∧ deposit_example_call.round_start = deposit_example_partkey.round_start
    ∧ deposit_example_call.round_end = deposit_example_partkey.round_end
    ∧ deposit_example_call.sender = ("M").data
    ∧ deposit_example_call.foreign_apps = [2, 1]
    ∧ deposit_example_call.accounts = [("A").data] :=
  deposit_partkey_submitted_fields deposit_example_partkey (("A").data) (("M").data) 1 2
    deposit_example_call (by decide)

/-- C9: `run_cmd_command_and_wait_for_output` returns a
`(validity, stdout)` pair only for executions in which the process was
actually spawned, and the returned stdout is that process's captured
output; after an `OSError` the function evaluates `result.stdout` with
`result` still `None` and raises instead of returning. -/
theorem run_cmd_pair_only_when_spawned (outcome : SpawnOutcome) (p : Bool × List Char)
    (h : run_cmd_command_and_wait_for_output outcome = .ok p) :
    (∃ returncode stdout stderr, outcome = .spawned returncode stdout stderr
      ∧ p.2 = stdout ∧ p.1 = decide (returncode = 0))
    ∧ (∀ msg, run_cmd_command_and_wait_for_output (.osError msg)
        = .error result_none_attribute_error) := by
  constructor
  · cases outcome with
    | osError m => exact absurd h (by simp [run_cmd_command_and_wait_for_output])
    | spawned rc so se =>
      simp only [run_cmd_command_and_wait_for_output] at h
      cases h
      exact ⟨rc, so, se, rfl, rfl, rfl⟩
  · intro m
    rfl

theorem run_cmd_pair_only_when_spawned_witness :
    (∃ returncode stdout stderr,
        SpawnOutcome.spawned 0 (("out").data) [] = .spawned returncode stdout stderr
      ∧ ((true, ("out").data) : Bool × List Char).2 = stdout
      ∧ ((true, ("out").data) : Bool × List Char).1 = decide (returncode = 0))
    ∧ (∀ msg, run_cmd_command_and_wait_for_output (.osError msg)
        = .error result_none_attribute_error) :=
  run_cmd_pair_only_when_spawned (.spawned 0 (("out").data) []) (true, ("out").data) rfl

/-- C10: `_get_partkey_id` never signals failure. When the second line of
the command output does not contain the marker `'Participation ID: '`,
`find` returns `-1`, so the start index is `-1 + 18 = 17` and the
function returns the suffix of the second line from index 17 — an
arbitrary non-identifier string — instead of an error. -/
theorem get_partkey_id_marker_absent_suffix (cmd_command_return line0 line1 : List Char)
    (rest : List (List Char))
    (hsplit : splitOnChar '\n' cmd_command_return = line0 :: line1 :: rest)
    (habs : ∀ i, i < line1.length → (line1.drop i).take 18 ≠ participation_id_marker) :
    pyFind participation_id_marker line1 = -1
    ∧ get_partkey_id cmd_command_return = .ok (line1.drop 17) := by
  have hmarker : participation_id_marker.length = 18 := rfl
  have hfind : pyFind participation_id_marker line1 = -1 := by
    unfold pyFind
    have hnone : (List.range (line1.length + 1)).find?
        (fun i => decide ((line1.drop i).take participation_id_marker.length
          = participation_id_marker)) = none := by
      rw [List.find?_eq_none]
      intro i hi
      rw [List.mem_range] at hi
      simp only [decide_eq_true_eq]
      intro heq
      by_cases hlt : i < line1.length
      · rw [hmarker] at heq
        exact habs i hlt heq
      · have hdrop : line1.drop i = [] := List.drop_eq_nil_of_le (by omega)
        rw [hdrop] at heq
        simp at heq
        exact absurd heq.symm (by decide)
    rw [hnone]
  refine ⟨hfind, ?_⟩
  simp only [get_partkey_id, hsplit]
  rw [hfind]
  have hstart : (-1 : Int) + (participation_id_marker.length : Int) = Int.ofNat 17 := by
    decide
  rw [hstart]
  have hslice : pySlice line1 (Int.ofNat 17) (line1.length : Int) = line1.drop 17 := by
    unfold pySlice
    rw [pyBound_ofNat]
    rw [show ((line1.length : Nat) : Int) = Int.ofNat line1.length from rfl, pyBound_ofNat]
    rw [Nat.min_self, List.take_length]
    rcases Nat.le_total 17 line1.length with hle | hle
    · rw [Nat.min_eq_left hle]
    · rw [Nat.min_eq_right hle, List.drop_eq_nil_of_le (le_refl _),
        List.drop_eq_nil_of_le hle]
  rw [hslice]

theorem get_partkey_id_marker_absent_witness :
    pyFind participation_id_marker (("b").data) = -1
    ∧ get_partkey_id (("a\nb\nc").data) = .ok ((("b").data).drop 17) :=
  get_partkey_id_marker_absent_suffix (("a\nb\nc").data) (("a").data) (("b").data)
    [("c").data] (by decide) (by decide)

end IgoProtect
